import Mathlib

/-!
Verification development for the clang-class-signature tool
(src/ClassVersion.cpp, canonical filter-capable variant).

The C++ pipeline accumulates a reflection database of class names and
their data members and serializes it as indented near-JSON text.  Below
we shallowly embed the data model (FieldDatabase, ClassDatabase,
ToolDatabase), the dump serializers (streams become an explicit String
accumulator, mirroring the C++ operator<< appends line by line), the
name filter (shouldVisit), the traversal adapter (VisitCXXRecordDecl,
with the external clang declaration abstracted as a DeclEvent carrying
the qualified name and the ordered member pairs, per the spec's external
interface), and the output-sink driver (dump_tool_database, with the
file system abstracted by a canOpen predicate and the effects recorded
in a RunResult).
-/

namespace ClassVersion

/-- Embeds C++ appendVal: appends the string a to t, num times
(the C++ loop for i in [0, num) performing t += a). -/
def appendVal (t : String) (a : String) : Nat → String
  | 0 => t
  | Nat.succ n => appendVal (t ++ a) a n

/-- Abbreviation for an indentation string of n spaces, exactly as the
dump functions build it: appendVal applied to the empty string. -/
def ind (n : Nat) : String := appendVal "" " " n

/-- Embeds struct FieldDatabase: one non-static data member, carrying
the printed type and the qualified variable name (field `variable` in
the C++; renamed variable_ since `variable` is a Lean keyword). -/
structure FieldDatabase where
  type : String
  variable_ : String
deriving DecidableEq, Repr

/-- Embeds FieldDatabase::dump: writes the field's object block to the
out stream at the given indent. -/
def FieldDatabase.dump (f : FieldDatabase) (out : String) (indent : Nat) : String :=
  let indent_str := appendVal "" " " indent
  let member_indent_str := appendVal "" " " (indent + 4)
  let out := out ++ indent_str ++ "\x7b\n"
  let out := out ++ member_indent_str ++ "\"type\" : \"" ++ f.type ++ "\",\n"
  let out := out ++ member_indent_str ++ "\"variable\": \"" ++ f.variable_ ++ "\""
  let out := out ++ "\n" ++ indent_str ++ "\x7d"
  out

/-- Embeds class ClassDatabase: the ordered field list m_fields and the
qualified class name m_name. -/
structure ClassDatabase where
  m_fields : List FieldDatabase
  m_name : String
deriving DecidableEq, Repr

/-- Embeds ClassDatabase::addField followed by the caller's assignments
to the returned reference: net effect is appending the given field. -/
def ClassDatabase.addField (c : ClassDatabase) (f : FieldDatabase) : ClassDatabase :=
  ⟨c.m_fields ++ [f], c.m_name⟩

/-- Embeds the field loop inside ClassDatabase::dump: iter counts the
fields already emitted, a comma-newline separates consecutive blocks. -/
def dumpFieldsLoop (indent : Nat) : List FieldDatabase → String → Nat → String
  | [], out, _ => out
  | f :: rest, out, iter =>
    let out := if iter > 0 then out ++ ",\n" else out
    dumpFieldsLoop indent rest (f.dump out indent) (iter + 1)

/-- Embeds ClassDatabase::dump: writes the record's object block (name
entry, then either an empty fields array or the bracketed field blocks
at indent + 8) to the out stream. -/
def ClassDatabase.dump (c : ClassDatabase) (out : String) (indent : Nat) : String :=
  let indent_str := appendVal "" " " indent
  let member_indent_str := appendVal "" " " (indent + 4)
  let out := out ++ indent_str ++ "\x7b\n"
  let out := out ++ member_indent_str ++ "\"name\": \"" ++ c.m_name ++ "\",\n"
  let out :=
    if c.m_fields.isEmpty then
      out ++ member_indent_str ++ "\"fields\": []"
    else
      let out := out ++ member_indent_str ++ "\"fields\":\n"
      let out := out ++ member_indent_str ++ "[\n"
      let out := dumpFieldsLoop (indent + 8) c.m_fields out 0
      out ++ "\n" ++ member_indent_str ++ "]"
  out ++ "\n" ++ indent_str ++ "\x7d"

/-- Embeds class ToolDatabase: the ordered record list m_classes. -/
structure ToolDatabase where
  m_classes : List ClassDatabase
deriving DecidableEq, Repr

/-- Embeds ToolDatabase::addClass: emplaces a new ClassDatabase built
from the name, whose field list starts empty. -/
def ToolDatabase.addClass (t : ToolDatabase) (name : String) : ToolDatabase :=
  ⟨t.m_classes ++ [⟨[], name⟩]⟩

/-- Embeds the class loop inside ToolDatabase::dump, with the same
iter / comma discipline as the field loop. -/
def dumpClassesLoop (indent : Nat) : List ClassDatabase → String → Nat → String
  | [], out, _ => out
  | c :: rest, out, iter =>
    let out := if iter > 0 then out ++ ",\n" else out
    dumpClassesLoop indent rest (c.dump out indent) (iter + 1)

/-- Embeds ToolDatabase::dump: a leading newline, the opening bracket at
the base indent, each record block at indent + 4 separated by commas, a
newline and the closing bracket at the base indent. -/
def ToolDatabase.dump (t : ToolDatabase) (out : String) (indent : Nat) : String :=
  let indent_str := appendVal "" " " indent
  let out := out ++ "\n" ++ indent_str ++ "[\n"
  let out := dumpClassesLoop (indent + 4) t.m_classes out 0
  out ++ "\n" ++ indent_str ++ "]"

/-- Embeds std::string::find for the pattern pat inside s: returns the
first index at which pat occurs as a contiguous substring (none plays
the role of std::string::npos).  Helper recursion over the suffixes. -/
def findSubAux (pat : List Char) : List Char → Nat → Option Nat
  | s, i =>
    if pat.isPrefixOf s then some i
    else
      match s with
      | [] => none
      | _ :: rest => findSubAux pat rest (i + 1)

/-- Embeds class_name.find(m): search for pattern m in string s. -/
def stringFind (s : String) (pat : String) : Option Nat :=
  findSubAux pat.toList s.toList 0

/-- Embeds FindNamedClassVisitor::shouldVisit, with the command-line
matchList made an explicit argument and the clang declaration replaced
by its qualified name (the only thing shouldVisit reads from it).
Empty list: visit everything; otherwise visit iff some pattern is found
in the name (find != npos). -/
def shouldVisit (matchList : List String) (class_name : String) : Bool :=
  if matchList.isEmpty then true
  else matchList.any (fun m => (stringFind class_name m).isSome)

/-- Models from the spec's external-interface contract the one
declaration-visit event the clang walker delivers: the candidate's
fully qualified name and its ordered (member-type-text,
member-qualified-name) pairs. -/
structure DeclEvent where
  qualName : String
  members : List (String × String)
deriving DecidableEq, Repr

/-- Embeds the append-to-the-last-record effect of calling addField on
the reference returned by addClass: only the most recently added class
is modified. -/
def addFieldLastAux : List ClassDatabase → FieldDatabase → List ClassDatabase
  | [], _ => []
  | [c], f => [c.addField f]
  | c :: c2 :: rest, f => c :: addFieldLastAux (c2 :: rest) f

/-- Appends a field to the most recently added ClassDatabase of the
database (the in-place mutation through the reference in the C++). -/
def ToolDatabase.addFieldToLast (t : ToolDatabase) (f : FieldDatabase) : ToolDatabase :=
  ⟨addFieldLastAux t.m_classes f⟩

/-- Embeds FindNamedClassVisitor::VisitCXXRecordDecl: if shouldVisit
rejects the declaration, the database is untouched; otherwise addClass
appends a record with the qualified name and the loop over the
declaration's fields appends one FieldDatabase per member pair, setting
its type and variable. -/
def visitCXXRecordDecl (matchList : List String) (tdb : ToolDatabase) (e : DeclEvent) :
    ToolDatabase :=
  if shouldVisit matchList e.qualName then
    let tdb := tdb.addClass e.qualName
    e.members.foldl (fun t p => t.addFieldToLast ⟨p.1, p.2⟩) tdb
  else
    tdb

/-- The whole traversal: the external walker delivers the events in
source order and the visitor folds them into the (initially empty)
global database. -/
def processEvents (matchList : List String) (events : List DeclEvent) : ToolDatabase :=
  events.foldl (visitCXXRecordDecl matchList) ⟨[]⟩

/-- Record of the externally visible effects of one dump_tool_database
call: the exit code, the text written to standard output, the file
writes performed (path and full content; opening with std::ofstream
truncates, so one write carries the whole final content), the error
messages emitted on standard error, and the file-open attempts made. -/
structure RunResult where
  exitCode : Nat
  stdoutText : String
  fileWrites : List (String × String)
  errMessages : List String
  openAttempts : List String
deriving DecidableEq, Repr

/-- Embeds dump_tool_database: OutputFilename "-" sends the dump plus a
trailing newline to standard output; any other value is opened as a
file (truncating), a failed open reports one error and returns 1, a
successful open receives the dump with no trailing newline. -/
def dump_tool_database (outputFilename : String) (canOpen : String → Bool)
    (tdb : ToolDatabase) : RunResult :=
  if outputFilename = "-" then
    { exitCode := 0
      stdoutText := tdb.dump "" 0 ++ "\n"
      fileWrites := []
      errMessages := []
      openAttempts := [] }
  else if canOpen outputFilename then
    { exitCode := 0
      stdoutText := ""
      fileWrites := [(outputFilename, tdb.dump "" 0)]
      errMessages := []
      openAttempts := [outputFilename] }
  else
    { exitCode := 1
      stdoutText := ""
      fileWrites := []
      errMessages := ["Failed to open output file " ++ outputFilename ++ " for writing."]
      openAttempts := [outputFilename] }

/-! Declarative descriptions of the serialized output, used to compare
the stream-style dump functions against the shapes the spec asserts
(block indents, +4 increments, comma placement). -/

/-- Concatenation of blocks where every block, including the first, is
preceded by a comma and a newline. -/
def commaTail : List String → String
  | [] => ""
  | b :: rest => ",\n" ++ b ++ commaTail rest

/-- Comma-newline-separated concatenation of blocks (no separator
before the first block). -/
def joinComma : List String → String
  | [] => ""
  | b :: rest => b ++ commaTail rest

/-- Declarative shape of one serialized field: an object block whose
opening and closing braces sit at indent k and whose two entries sit at
indent k + 4, both string values copied verbatim. -/
def fieldBlock (f : FieldDatabase) (k : Nat) : String :=
  ind k ++ "\x7b\n"
    ++ ind (k + 4) ++ "\"type\" : \"" ++ f.type ++ "\",\n"
    ++ ind (k + 4) ++ "\"variable\": \"" ++ f.variable_ ++ "\""
    ++ "\n" ++ ind k ++ "\x7d"

/-- Declarative shape of one serialized record: braces at indent j,
body entries at indent j + 4, and each field block a further +4 beyond
the body, at indent j + 8; an empty field list renders as the literal
empty bracket pair. -/
def classBlock (c : ClassDatabase) (j : Nat) : String :=
  ind j ++ "\x7b\n"
    ++ ind (j + 4) ++ "\"name\": \"" ++ c.m_name ++ "\",\n"
    ++ (if c.m_fields.isEmpty then
          ind (j + 4) ++ "\"fields\": []"
        else
          ind (j + 4) ++ "\"fields\":\n" ++ ind (j + 4) ++ "[\n"
            ++ joinComma (c.m_fields.map (fun f => fieldBlock f (j + 8)))
            ++ "\n" ++ ind (j + 4) ++ "]")
    ++ "\n" ++ ind j ++ "\x7d"

/-- Declarative shape of the serialized database: a leading newline,
brackets at the base indent i, and each record block at indent i + 4 in
insertion order, comma-separated. -/
def dbBlock (cs : List ClassDatabase) (i : Nat) : String :=
  "\n" ++ ind i ++ "[\n"
    ++ joinComma (cs.map (fun c => classBlock c (i + 4)))
    ++ "\n" ++ ind i ++ "]"

/-- The ClassDatabase that one accepted declaration-visit event
produces: the event's qualified name and one field per member pair, in
member order. -/
def eventClass (e : DeclEvent) : ClassDatabase :=
  ⟨e.members.map (fun p => ⟨p.1, p.2⟩), e.qualName⟩

end ClassVersion

namespace ClassVersion

/-! Helper lemmas relating the stream-style dump functions to the
declarative block shapes, and the traversal fold to filter-and-map. -/

/-- One field dump appends exactly its declarative block. -/
theorem fieldDump_eq (f : FieldDatabase) (out : String) (k : Nat) :
    f.dump out k = out ++ fieldBlock f k := by
  simp [FieldDatabase.dump, fieldBlock, ind, String.append_assoc]

/-- The field loop already past its first iteration appends a comma
before every remaining block. -/
theorem dumpFieldsLoop_pos (k : Nat) (fs : List FieldDatabase) :
    ∀ (out : String) (i : Nat), 0 < i →
      dumpFieldsLoop k fs out i = out ++ commaTail (fs.map (fun f => fieldBlock f k)) := by
  induction fs with
  | nil => intro out i _; simp [dumpFieldsLoop, commaTail]
  | cons f rest ih =>
    intro out i hi
    simp only [dumpFieldsLoop, if_pos hi, fieldDump_eq, List.map_cons, commaTail]
    rw [ih _ (i + 1) (Nat.succ_pos i)]
    simp [String.append_assoc]

/-- The field loop started at iteration zero appends the separator-free
join of the blocks. -/
theorem dumpFieldsLoop_zero (k : Nat) (fs : List FieldDatabase) (out : String) :
    dumpFieldsLoop k fs out 0 = out ++ joinComma (fs.map (fun f => fieldBlock f k)) := by
  cases fs with
  | nil => simp [dumpFieldsLoop, joinComma]
  | cons f rest =>
    simp only [dumpFieldsLoop, List.map_cons, joinComma]
    rw [if_neg (by decide), fieldDump_eq, dumpFieldsLoop_pos k rest _ 1 Nat.one_pos]
    simp [String.append_assoc]

/-- One record dump appends exactly its declarative block. -/
theorem classDump_eq (c : ClassDatabase) (out : String) (j : Nat) :
    c.dump out j = out ++ classBlock c j := by
  by_cases hc : c.m_fields.isEmpty
  · simp [ClassDatabase.dump, classBlock, hc, ind, String.append_assoc]
  · simp [ClassDatabase.dump, classBlock, hc, ind, dumpFieldsLoop_zero, String.append_assoc]

/-- The class loop already past its first iteration appends a comma
before every remaining block. -/
theorem dumpClassesLoop_pos (j : Nat) (cs : List ClassDatabase) :
    ∀ (out : String) (i : Nat), 0 < i →
      dumpClassesLoop j cs out i = out ++ commaTail (cs.map (fun c => classBlock c j)) := by
  induction cs with
  | nil => intro out i _; simp [dumpClassesLoop, commaTail]
  | cons c rest ih =>
    intro out i hi
    simp only [dumpClassesLoop, if_pos hi, classDump_eq, List.map_cons, commaTail]
    rw [ih _ (i + 1) (Nat.succ_pos i)]
    simp [String.append_assoc]

/-- The class loop started at iteration zero appends the separator-free
join of the blocks. -/
theorem dumpClassesLoop_zero (j : Nat) (cs : List ClassDatabase) (out : String) :
    dumpClassesLoop j cs out 0 = out ++ joinComma (cs.map (fun c => classBlock c j)) := by
  cases cs with
  | nil => simp [dumpClassesLoop, joinComma]
  | cons c rest =>
    simp only [dumpClassesLoop, List.map_cons, joinComma]
    rw [if_neg (by decide), classDump_eq, dumpClassesLoop_pos j rest _ 1 Nat.one_pos]
    simp [String.append_assoc]

/-- The whole database dump appends exactly the declarative database
block: brackets at the base indent, records at base + 4, fields at
base + 4 + 8. -/
theorem toolDump_eq (t : ToolDatabase) (out : String) (i : Nat) :
    t.dump out i = out ++ dbBlock t.m_classes i := by
  simp [ToolDatabase.dump, dbBlock, ind, dumpClassesLoop_zero, String.append_assoc]

/-- Appending a field to the last record of a nonempty snoc-shaped list
touches only that last record. -/
theorem addFieldLastAux_append (l : List ClassDatabase) (c : ClassDatabase)
    (f : FieldDatabase) :
    addFieldLastAux (l ++ [c]) f = l ++ [c.addField f] := by
  induction l with
  | nil => rfl
  | cons a l ih =>
    cases l with
    | nil => rfl
    | cons b l2 =>
      simp only [List.cons_append, addFieldLastAux, List.append_eq]
      simp only [List.cons_append] at ih
      rw [ih]

/-- Folding the member pairs of one event over addFieldToLast extends
only the final record, appending the pairs as fields in order. -/
theorem foldl_addFieldToLast (ps : List (String × String)) :
    ∀ (l : List ClassDatabase) (c : ClassDatabase),
      ps.foldl (fun t p => ToolDatabase.addFieldToLast t ⟨p.1, p.2⟩)
          (ToolDatabase.mk (l ++ [c]))
        = ⟨l ++ [⟨c.m_fields ++ ps.map (fun p => ⟨p.1, p.2⟩), c.m_name⟩]⟩ := by
  induction ps with
  | nil => intro l c; simp
  | cons p ps ih =>
    intro l c
    simp only [List.foldl_cons]
    have h1 : ToolDatabase.addFieldToLast ⟨l ++ [c]⟩ ⟨p.1, p.2⟩
        = ⟨l ++ [c.addField ⟨p.1, p.2⟩]⟩ := by
      simp [ToolDatabase.addFieldToLast, addFieldLastAux_append]
    rw [h1, ih l (c.addField ⟨p.1, p.2⟩)]
    simp [ClassDatabase.addField]

/-- One visit either appends exactly the event's record (when the
filter accepts) or leaves the database untouched (when it rejects). -/
theorem visitCXXRecordDecl_eq (ml : List String) (t : ToolDatabase) (e : DeclEvent) :
    visitCXXRecordDecl ml t e
      = if shouldVisit ml e.qualName then ⟨t.m_classes ++ [eventClass e]⟩ else t := by
  by_cases h : shouldVisit ml e.qualName
  · simp only [visitCXXRecordDecl, h, if_true, ToolDatabase.addClass]
    rw [foldl_addFieldToLast e.members t.m_classes ⟨[], e.qualName⟩]
    simp [eventClass]
  · simp [visitCXXRecordDecl, h]

/-- Folding any event list over the visitor appends exactly the records
of the filter-accepted events, in order. -/
theorem foldl_visit (ml : List String) (es : List DeclEvent) :
    ∀ (t : ToolDatabase),
      es.foldl (visitCXXRecordDecl ml) t
        = ⟨t.m_classes ++ (es.filter (fun e => shouldVisit ml e.qualName)).map eventClass⟩ := by
  induction es with
  | nil => intro t; simp
  | cons e es ih =>
    intro t
    simp only [List.foldl_cons, visitCXXRecordDecl_eq]
    by_cases h : shouldVisit ml e.qualName
    · rw [if_pos h, ih]
      simp [List.filter_cons, h]
    · rw [if_neg h, ih]
      simp [List.filter_cons, h]

/-- Search helper: findSubAux succeeds exactly when the pattern occurs
as a contiguous sublist of the searched suffix. -/
theorem findSubAux_isSome (pat : List Char) (s : List Char) :
    ∀ i : Nat, (findSubAux pat s i).isSome = true ↔ pat <:+: s := by
  induction s with
  | nil =>
    intro i
    by_cases h : pat.isPrefixOf ([] : List Char)
    · rw [ List.isPrefixOf_iff_prefix, List.prefix_nil] at h
      simp [findSubAux, List.isPrefixOf_iff_prefix, List.prefix_nil, h, List.infix_nil]
    · rw [ List.isPrefixOf_iff_prefix, List.prefix_nil] at h
      simp [findSubAux, List.isPrefixOf_iff_prefix, List.prefix_nil, h, List.infix_nil]
  | cons a rest ih =>
    intro i
    by_cases h : pat.isPrefixOf (a :: rest)
    · rw [ List.isPrefixOf_iff_prefix] at h
      simp [findSubAux, List.isPrefixOf_iff_prefix, h]
      exact h.isInfix
    · rw [ List.isPrefixOf_iff_prefix] at h
      simp only [findSubAux, List.isPrefixOf_iff_prefix, h, if_false, ih (i + 1)]
      rw [ List.infix_cons_iff]
      simp [h]

/-- The name filter accepts exactly the names containing some pattern
as a contiguous substring (and everything when the list is empty). -/
theorem shouldVisit_iff (P : List String) (Q : String) :
    shouldVisit P Q = true ↔ (P = [] ∨ ∃ p ∈ P, p.toList <:+: Q.toList) := by
  by_cases hP : P = []
  · simp [shouldVisit, hP]
  · simp only [shouldVisit, List.isEmpty_iff, hP, if_false, List.any_eq_true]
    constructor
    · rintro ⟨p, hp, hfind⟩
      exact Or.inr ⟨p, hp, (findSubAux_isSome p.toList Q.toList 0).mp hfind⟩
    · rintro (h | ⟨p, hp, hinf⟩)
      · exact h.elim
      · exact ⟨p, hp, (findSubAux_isSome p.toList Q.toList 0).mpr hinf⟩

/-- C1: the name filter shouldVisit returns true for every qualified
name when the pattern list is empty, and otherwise returns true iff at
least one pattern occurs as a contiguous, case-sensitive substring of
the qualified name; in particular, for the pattern list containing only
"Foo", the names "Foo" and "NsFoo::Baz" are included and "Bar" is
rejected. -/
theorem name_filter_spec (Q : String) (P : List String) :
    (P = [] → shouldVisit P Q = true)
    ∧ (P ≠ [] → (shouldVisit P Q = true ↔ ∃ p ∈ P, p.toList <:+: Q.toList))
    ∧ shouldVisit ["Foo"] "Foo" = true
    ∧ shouldVisit ["Foo"] "NsFoo::Baz" = true
    ∧ shouldVisit ["Foo"] "Bar" = false := by
  refine ⟨?_, ?_, by decide, by decide, by decide⟩
  · intro h
    exact (shouldVisit_iff P Q).mpr (Or.inl h)
  · intro hP
    constructor
    · intro hs
      rcases (shouldVisit_iff P Q).mp hs with h | h
      · exact (hP h).elim
      · exact h
    · intro hex
      exact (shouldVisit_iff P Q).mpr (Or.inr hex)

/-- Witness for C1: instantiates the filter theorem at concrete
inputs: the empty pattern list accepts the name "Bar". -/
theorem name_filter_spec_witness : shouldVisit [] "Bar" = true :=
  (name_filter_spec "Bar" []).1 rfl

/-- C2: processing a sequence of declaration-visit events produces one
ClassDatabase per event accepted by the name filter, in the same
relative order, whose fields are exactly the event's member pairs in
order; rejected events contribute nothing. -/
theorem traversal_populates_spec (ml : List String) (es : List DeclEvent) :
    (processEvents ml es).m_classes
      = (es.filter (fun e => shouldVisit ml e.qualName)).map
          (fun e => ⟨e.members.map (fun p => ⟨p.1, p.2⟩), e.qualName⟩) := by
  rw [processEvents, foldl_visit]
  simp [eventClass]

/-- Counterexample for C3: the serialized empty database is the text
newline, bracket, newline, newline, bracket: its lines are an empty
line, the opening bracket, a blank line, and the closing bracket, so
the closing bracket is NOT on the line following the opening bracket
(the text never contains an opening bracket immediately followed, on
the very next line, by the closing bracket). -/
theorem empty_dump_counterexample :
    ToolDatabase.dump ⟨[]⟩ "" 0 = "\n" ++ "[" ++ "\n" ++ "\n" ++ "]"
    ∧ ¬ ("[\n]".toList <:+: (ToolDatabase.dump ⟨[]⟩ "" 0).toList) := by
  refine ⟨by decide, by decide⟩

/-- C3 as amended: serializing an empty database emits the opening
bracket at the base indent, then one blank line, then the closing
bracket, with no class blocks between them. -/
theorem empty_dump_amended (i : Nat) :
    ToolDatabase.dump ⟨[]⟩ "" i = "\n" ++ ind i ++ "[\n" ++ "\n" ++ ind i ++ "]" := by
  rw [toolDump_eq]
  simp [dbBlock, joinComma, String.append_assoc]

set_option maxRecDepth 8000 in
/-- C4: the database holding exactly one record named Foo with the one
field of type int and variable Foo::x serializes at base indent 0 to
the expected block: the full text is fixed, and it contains the name
entry for Foo and a fields array whose single object carries the type
entry for int and the variable entry for Foo::x, values verbatim. -/
theorem single_record_dump_spec :
    ToolDatabase.dump ⟨[⟨[⟨"int", "Foo::x"⟩], "Foo"⟩]⟩ "" 0
      = "\n[\n    \x7b\n        \"name\": \"Foo\",\n        \"fields\":\n        [\n            \x7b\n                \"type\" : \"int\",\n                \"variable\": \"Foo::x\"\n            \x7d\n        ]\n    \x7d\n]"
    ∧ (stringFind (ToolDatabase.dump ⟨[⟨[⟨"int", "Foo::x"⟩], "Foo"⟩]⟩ "" 0)
        "\"name\": \"Foo\"").isSome = true
    ∧ (stringFind (ToolDatabase.dump ⟨[⟨[⟨"int", "Foo::x"⟩], "Foo"⟩]⟩ "" 0)
        "\"type\" : \"int\"").isSome = true
    ∧ (stringFind (ToolDatabase.dump ⟨[⟨[⟨"int", "Foo::x"⟩], "Foo"⟩]⟩ "" 0)
        "\"variable\": \"Foo::x\"").isSome = true := by
  refine ⟨by decide, by decide, by decide, by decide⟩

/-- C5: a record whose field list is empty renders its fields entry as
the literal empty bracket pair: the record's whole block is fixed up to
the verbatim name, and the fields value in it is the two-character
bracket text, which is neither the empty quoted string nor null. -/
theorem empty_fields_render_spec (name out : String) (j : Nat) :
    ClassDatabase.dump ⟨[], name⟩ out j
      = out ++ ind j ++ "\x7b\n"
          ++ ind (j + 4) ++ "\"name\": \"" ++ name ++ "\",\n"
          ++ ind (j + 4) ++ "\"fields\": []"
          ++ "\n" ++ ind j ++ "\x7d"
    ∧ ("[]" : String) ≠ "\"\""
    ∧ ("[]" : String) ≠ "null" := by
  refine ⟨?_, by decide, by decide⟩
  rw [classDump_eq]
  simp [classBlock, String.append_assoc]

/-- C6: the serialized output's nesting increments are fixed: the dump
of the whole database equals the declarative dbBlock shape, in which
every record block is rendered at the base indent plus 4, every record
body line at the record's own brace indent plus 4, and every field
block a further 4 beyond the record body (record indent plus 8). -/
theorem indentation_spec (t : ToolDatabase) (out : String) (i : Nat) :
    t.dump out i = out ++ dbBlock t.m_classes i :=
  toolDump_eq t out i

/-- Witness for C7 is not needed; C7: serialization is deterministic:
dumping equal databases at equal base indents yields byte-identical
text. -/
theorem dump_deterministic (t1 t2 : ToolDatabase) (i1 i2 : Nat)
    (ht : t1 = t2) (hi : i1 = i2) :
    ToolDatabase.dump t1 "" i1 = ToolDatabase.dump t2 "" i2 := by
  rw [ht, hi]

/-- Witness for C7: two dumps of the same concrete database at the same
indent agree. -/
theorem dump_deterministic_witness :
    ToolDatabase.dump ⟨[⟨[], "Foo"⟩]⟩ "" 0 = ToolDatabase.dump ⟨[⟨[], "Foo"⟩]⟩ "" 0 :=
  dump_deterministic ⟨[⟨[], "Foo"⟩]⟩ ⟨[⟨[], "Foo"⟩]⟩ 0 0 rfl rfl

/-- C8: appending a class appends one fresh empty record at the end and
leaves all previous records in place; appending a field appends it at
the end of the field list; appending a field to the most recently added
record leaves every earlier record untouched, changes only the last
record by the appended field, and removes nothing (the length is
unchanged). -/
theorem append_frame_spec (t : ToolDatabase) (name : String) (c : ClassDatabase)
    (f : FieldDatabase) :
    ((t.addClass name).m_classes = t.m_classes ++ [⟨[], name⟩])
    ∧ ((c.addField f).m_fields = c.m_fields ++ [f])
    ∧ (t.m_classes ≠ [] →
        ((t.addFieldToLast f).m_classes.dropLast = t.m_classes.dropLast
         ∧ (t.addFieldToLast f).m_classes.getLast?
             = t.m_classes.getLast?.map (fun c2 => c2.addField f)
         ∧ (t.addFieldToLast f).m_classes.length = t.m_classes.length)) := by
  refine ⟨rfl, rfl, ?_⟩
  intro hne
  rcases (List.eq_nil_or_concat t.m_classes).resolve_left hne with ⟨l, b, hl⟩
  have hx : (t.addFieldToLast f).m_classes = l ++ [b.addField f] := by
    show addFieldLastAux t.m_classes f = l ++ [b.addField f]
    rw [hl, List.concat_eq_append, addFieldLastAux_append]
  rw [hx, hl, List.concat_eq_append]
  simp

/-- Witness for C8: on a database holding one record named A with no
fields, appending a field to the last record yields the record A with
exactly that field. -/
theorem append_frame_spec_witness :
    (ToolDatabase.addFieldToLast ⟨[⟨[], "A"⟩]⟩ ⟨"int", "x"⟩).m_classes.getLast?
      = some ⟨[⟨"int", "x"⟩], "A"⟩ := by
  have h := (append_frame_spec ⟨[⟨[], "A"⟩]⟩ "B" ⟨[], "A"⟩ ⟨"int", "x"⟩).2.2 (by decide)
  simpa [ClassDatabase.addField] using h.2.1

/-- C9: the output-sink selection maps "-" to standard output and any
other configured value to a file write of the whole dump (the single
write models the truncating open); a file that cannot be opened makes
the run fail with exit code 1 (nonzero), emits exactly one error
message, performs no file write, and makes exactly one open attempt (no
retry). -/
theorem output_sink_spec (name : String) (canOpen : String → Bool) (tdb : ToolDatabase) :
    (name = "-" →
       dump_tool_database name canOpen tdb
         = ⟨0, tdb.dump "" 0 ++ "\n", [], [], []⟩)
    ∧ (name ≠ "-" → canOpen name = true →
       dump_tool_database name canOpen tdb
         = ⟨0, "", [(name, tdb.dump "" 0)], [], [name]⟩)
    ∧ (name ≠ "-" → canOpen name = false →
       (dump_tool_database name canOpen tdb).exitCode = 1
       ∧ (dump_tool_database name canOpen tdb).exitCode ≠ 0
       ∧ (dump_tool_database name canOpen tdb).errMessages
           = ["Failed to open output file " ++ name ++ " for writing."]
       ∧ (dump_tool_database name canOpen tdb).errMessages.length = 1
       ∧ (dump_tool_database name canOpen tdb).openAttempts = [name]
       ∧ (dump_tool_database name canOpen tdb).fileWrites = []) := by
  refine ⟨?_, ?_, ?_⟩
  · intro h
    simp [dump_tool_database, h]
  · intro h hopen
    simp [dump_tool_database, h, hopen]
  · intro h hopen
    simp [dump_tool_database, h, hopen]

/-- Witness for C9: with a file system refusing every open, writing to
the file out.txt fails with exit code 1, one error message, and one
open attempt. -/
theorem output_sink_spec_witness :
    (dump_tool_database "out.txt" (fun _ => false) ⟨[]⟩).exitCode = 1
    ∧ (dump_tool_database "out.txt" (fun _ => false) ⟨[]⟩).errMessages.length = 1 := by
  have h := (output_sink_spec "out.txt" (fun _ => false) ⟨[]⟩).2.2 (by decide) rfl
  exact ⟨h.1, h.2.2.2.1⟩

/-- C10: the standard-output sink receives the serialized block plus
one extra trailing newline, while the file sink receives the serialized
block with no trailing newline, and those two byte sequences always
differ. -/
theorem trailing_newline_spec (tdb : ToolDatabase) (canOpen : String → Bool)
    (path : String) :
    (dump_tool_database "-" canOpen tdb).stdoutText = ToolDatabase.dump tdb "" 0 ++ "\n"
    ∧ (path ≠ "-" → canOpen path = true →
        (dump_tool_database path canOpen tdb).fileWrites
          = [(path, ToolDatabase.dump tdb "" 0)])
    ∧ ToolDatabase.dump tdb "" 0 ++ "\n" ≠ ToolDatabase.dump tdb "" 0 := by
  refine ⟨?_, ?_, ?_⟩
  · simp [dump_tool_database]
  · intro h hopen
    simp [dump_tool_database, h, hopen]
  · intro h
    have hlen := congrArg String.length h
    simp [String.length_append] at hlen
    exact absurd hlen (by decide)

/-- Witness for C10: on the empty database, the file x receives the
dump with no trailing newline. -/
theorem trailing_newline_spec_witness :
    (dump_tool_database "x" (fun _ => true) ⟨[]⟩).fileWrites
      = [("x", ToolDatabase.dump ⟨[]⟩ "" 0)] :=
  (trailing_newline_spec ⟨[]⟩ (fun _ => true) "x").2.1 (by decide) rfl

end ClassVersion
